import Mathlib

/-!
Verification of the smoltcp fork's linear socket buffer, TCP dispatch and
window-scale negotiation against their natural-language specification.

The Rust sources are embedded shallowly:
* storage/linear_buffer.rs : structure LinearBuffer and its SocketBufferT
  implementation, with byte storage as a List Nat and panics as Option.
* iface/interface/tcp.rs   : process_tcp over an abstract socket set.
* iface/socket_set.rs      : SocketSet add/remove slot behaviour.
* the remote_win_shift computation of the TCP socket (the socket source file
  itself is absent from the tree; it is modelled from the spec and pinned by
  the in-tree tests test_listen_syn_win_scale_buffers and
  test_syn_sent_win_scale_buffers).
-/

/-- Extract the sub-list of l of length len starting at position start
(Rust slice l[start..start+len], clamped at the end like take/drop). -/
def sliceOf (l : List Nat) (start len : Nat) : List Nat :=
  (l.drop start).take len

/-- Overwrite l starting at position a with the bytes of d
(Rust copy_from_slice into l[a..a+d.len()]). -/
def writeBytes (l : List Nat) (a : Nat) (d : List Nat) : List Nat :=
  l.take a ++ d ++ l.drop (a + d.length)

/-- Default reserve for virtual window calculation
(DEFAULT_WINDOW_RESERVE in storage/linear_buffer.rs). -/
def DEFAULT_WINDOW_RESERVE : Nat := 4 * 1024

/-- State of storage/linear_buffer.rs LinearBuffer: byte storage plus the
scalars read_at, length, unallocated_extent, window_reserve. -/
structure LinearBuffer where
  storage : List Nat
  read_at : Nat
  length : Nat
  unallocated_extent : Nat
  window_reserve : Nat
deriving Repr, DecidableEq

/-- LinearBuffer::with_reserve. -/
def LinearBuffer.with_reserve (storage : List Nat) (window_reserve : Nat) :
    LinearBuffer :=
  { storage := storage, read_at := 0, length := 0, unallocated_extent := 0,
    window_reserve := window_reserve }

/-- SocketBufferT::new for LinearBuffer. -/
def LinearBuffer.new (storage : List Nat) : LinearBuffer :=
  LinearBuffer.with_reserve storage DEFAULT_WINDOW_RESERVE

/-- SocketBufferT::capacity: total length of the storage slice. -/
def LinearBuffer.capacity (b : LinearBuffer) : Nat :=
  b.storage.length

/-- LinearBuffer::occupied_extent: allocated plus unallocated written data. -/
def LinearBuffer.occupied_extent (b : LinearBuffer) : Nat :=
  b.length + b.unallocated_extent

/-- LinearBuffer::reset_if_empty. -/
def LinearBuffer.reset_if_empty (b : LinearBuffer) : LinearBuffer :=
  if b.occupied_extent = 0 then { b with read_at := 0 } else b

/-- LinearBuffer::compact_if_needed: compact if writing to required_end would
exceed capacity; the Bool reports whether compaction occurred. -/
def LinearBuffer.compact_if_needed (b : LinearBuffer) (required_end : Nat) :
    Bool × LinearBuffer :=
  if required_end > b.capacity ∧ b.read_at > 0 then
    let extent := b.occupied_extent
    let storage' :=
      if extent > 0 then
        writeBytes b.storage 0 (sliceOf b.storage b.read_at extent)
      else b.storage
    (true, { b with storage := storage', read_at := 0 })
  else
    (false, b)

/-- LinearBuffer::compact_if_free: only reset read_at when empty. -/
def LinearBuffer.compact_if_free (b : LinearBuffer) : LinearBuffer :=
  if b.occupied_extent = 0 then { b with read_at := 0 } else b

/-- LinearBuffer::set_window_reserve. -/
def LinearBuffer.set_window_reserve (b : LinearBuffer) (reserve : Nat) :
    LinearBuffer :=
  { b with window_reserve := reserve }

/-- SocketBufferT::clear for LinearBuffer. -/
def LinearBuffer.clear (b : LinearBuffer) : LinearBuffer :=
  { b with read_at := 0, length := 0, unallocated_extent := 0 }

/-- SocketBufferT::len for LinearBuffer. -/
def LinearBuffer.len (b : LinearBuffer) : Nat :=
  b.length

/-- SocketBufferT::window for LinearBuffer: tail space plus head space beyond
the reserve (both saturating subtractions, as in the source). -/
def LinearBuffer.window (b : LinearBuffer) : Nat :=
  let tail_space := b.capacity - (b.read_at + b.length)
  let head_space := b.read_at
  tail_space + (head_space - b.window_reserve)

/-- SocketBufferT::contiguous_window for LinearBuffer. -/
def LinearBuffer.contiguous_window (b : LinearBuffer) : Nat :=
  b.capacity - (b.read_at + b.occupied_extent)

/-- SocketBufferT::enqueue_slice for LinearBuffer. Returns the new buffer and
the number of bytes written. -/
def LinearBuffer.enqueue_slice (b : LinearBuffer) (data : List Nat) :
    LinearBuffer × Nat :=
  let b1 := b.reset_if_empty
  let end_at := b1.read_at + b1.length + data.length
  let b2 := (b1.compact_if_needed end_at).2
  let write_at := b2.read_at + b2.length
  let max_size := b2.contiguous_window
  let size := min data.length max_size
  ({ b2 with storage := writeBytes b2.storage write_at (data.take size),
             length := b2.length + size }, size)

/-- SocketBufferT::dequeue_slice for LinearBuffer: dst_len is the length of the
destination slice; returns the new buffer and the bytes copied out. -/
def LinearBuffer.dequeue_slice (b : LinearBuffer) (dst_len : Nat) :
    LinearBuffer × List Nat :=
  let size := min dst_len b.length
  let out := sliceOf b.storage b.read_at size
  let b1 := { b with read_at := b.read_at + size, length := b.length - size }
  (b1.compact_if_free, out)

/-- SocketBufferT::enqueue_many for LinearBuffer: returns the new buffer
together with the start and length of the slice handed to the caller. -/
def LinearBuffer.enqueue_many (b : LinearBuffer) (size : Nat) :
    LinearBuffer × Nat × Nat :=
  let b1 := b.reset_if_empty
  let end_at := b1.read_at + b1.length + size
  let b2 := (b1.compact_if_needed end_at).2
  let write_at := b2.read_at + b2.length
  let max_size := min size b2.contiguous_window
  ({ b2 with length := b2.length + max_size }, write_at, max_size)

/-- SocketBufferT::dequeue_many for LinearBuffer: returns the new buffer and
the dequeued bytes. -/
def LinearBuffer.dequeue_many (b : LinearBuffer) (size : Nat) :
    LinearBuffer × List Nat :=
  let size' := min size b.length
  let read_at0 := b.read_at
  let b1 := { b with read_at := b.read_at + size', length := b.length - size' }
  let b2 := if b1.occupied_extent = 0 then { b1 with read_at := 0 } else b1
  (b2, sliceOf b.storage read_at0 size')

/-- SocketBufferT::enqueue_many_with for LinearBuffer. The closure f receives
the writable slice and returns the size it commits together with the slice
contents after its in-place mutation; a size exceeding the slice is the
assert failure, modelled as none. -/
def LinearBuffer.enqueue_many_with (b : LinearBuffer)
    (f : List Nat → Nat × List Nat) : Option (Nat × LinearBuffer) :=
  let b1 := b.reset_if_empty
  let window := b1.window
  let end_at := b1.read_at + b1.length + window
  let b2 := (b1.compact_if_needed end_at).2
  let write_at := b2.read_at + b2.length
  let max_size := b2.contiguous_window
  let slice := sliceOf b2.storage write_at max_size
  let r := f slice
  if r.1 ≤ max_size then
    some (r.1,
      { b2 with
          storage := writeBytes b2.storage write_at
            (r.2.take max_size ++ slice.drop r.2.length),
          length := b2.length + r.1 })
  else none

/-- SocketBufferT::dequeue_many_with for LinearBuffer, with the same closure
convention as enqueue_many_with. -/
def LinearBuffer.dequeue_many_with (b : LinearBuffer)
    (f : List Nat → Nat × List Nat) : Option (Nat × LinearBuffer) :=
  let b1 := b.compact_if_free
  let max_size := b1.length
  let slice := sliceOf b1.storage b1.read_at max_size
  let r := f slice
  if r.1 ≤ max_size then
    let b2 :=
      { b1 with
          storage := writeBytes b1.storage b1.read_at
            (r.2.take max_size ++ slice.drop r.2.length),
          read_at := b1.read_at + r.1,
          length := b1.length - r.1 }
    some (r.1,
      if b2.length = 0 ∧ b2.unallocated_extent = 0 then
        { b2 with read_at := 0 }
      else b2)
  else none

/-- SocketBufferT::get_unallocated for LinearBuffer: returns the new buffer and
the start and length of the returned slice (the early return for a start
beyond capacity yields the empty slice and leaves unallocated_extent alone). -/
def LinearBuffer.get_unallocated (b : LinearBuffer) (offset size : Nat) :
    LinearBuffer × Nat × Nat :=
  let start_at0 := b.read_at + b.length + offset
  let end_at := start_at0 + size
  let c := b.compact_if_needed end_at
  let b1 := c.2
  let start_at := if c.1 then b1.read_at + b1.length + offset else start_at0
  if start_at ≥ b1.capacity then
    (b1, start_at, 0)
  else
    let available := b1.capacity - start_at
    let size' := min size available
    let end_offset := offset + size'
    let b2 :=
      if end_offset > b1.unallocated_extent then
        { b1 with unallocated_extent := end_offset }
      else b1
    (b2, start_at, size')

/-- SocketBufferT::write_unallocated for LinearBuffer: returns the new buffer
and the number of bytes written. -/
def LinearBuffer.write_unallocated (b : LinearBuffer) (offset : Nat)
    (data : List Nat) : LinearBuffer × Nat :=
  let r := b.get_unallocated offset data.length
  ({ r.1 with storage := writeBytes r.1.storage r.2.1 (data.take r.2.2) },
   r.2.2)

/-- SocketBufferT::enqueue_unallocated for LinearBuffer; the assert failure is
modelled as none. -/
def LinearBuffer.enqueue_unallocated (b : LinearBuffer) (count : Nat) :
    Option LinearBuffer :=
  if count ≤ b.window + b.unallocated_extent then
    let b1 :=
      { b with
          length := b.length + count,
          unallocated_extent :=
            if count ≥ b.unallocated_extent then 0
            else b.unallocated_extent - count }
    some b1.compact_if_free
  else none

/-- SocketBufferT::get_allocated for LinearBuffer: the returned bytes. -/
def LinearBuffer.get_allocated (b : LinearBuffer) (offset size : Nat) :
    List Nat :=
  if offset > b.length then []
  else
    let clamped := b.length - offset
    sliceOf b.storage (b.read_at + offset) (min size clamped)

/-- SocketBufferT::read_allocated for LinearBuffer: dst_len is the destination
slice length; returns the bytes copied (their count is the returned length). -/
def LinearBuffer.read_allocated (b : LinearBuffer) (offset dst_len : Nat) :
    List Nat :=
  b.get_allocated offset dst_len

/-- SocketBufferT::dequeue_allocated for LinearBuffer; the assert failure is
modelled as none. -/
def LinearBuffer.dequeue_allocated (b : LinearBuffer) (count : Nat) :
    Option LinearBuffer :=
  if count ≤ b.length then
    some ({ b with length := b.length - count,
                   read_at := b.read_at + count }).compact_if_free
  else none

/-- Per-segment view of a TCP socket, as seen by the dispatch loop of
iface/interface/tcp.rs: whether accepts returns true for the segment under
consideration, and the optional reply that process would return (abstracted
as a token, since the socket internals live outside this development). -/
structure TcpSockModel where
  acc : Bool
  reply : Option Nat
deriving Repr, DecidableEq

/-- A socket stored in a SocketSet slot: TCP or some other protocol
(the dispatch loop only looks at Socket::Tcp variants). -/
inductive Sock where
  | tcp (s : TcpSockModel)
  | other
deriving Repr, DecidableEq

/-- The per-segment facts process_tcp branches on: whether the parsed segment
is an RST and whether its source and destination addresses are specified. -/
structure SegMeta where
  isRst : Bool
  srcSpecified : Bool
  dstSpecified : Bool
deriving Repr, DecidableEq

/-- Result of process_tcp: a socket at slot index i accepted and its process
returned the reply; or an RST reply was synthesized; or the segment was
dropped with no reply. -/
inductive ProcessTcpResult where
  | accepted (i : Nat) (reply : Option Nat)
  | rstReply
  | dropSilently
deriving Repr, DecidableEq

/-- Does this slot hold a TCP socket that accepts the segment? -/
def isAcceptingTcp : Option Sock → Bool
  | some (.tcp s) => s.acc
  | _ => false

/-- The for-loop of process_tcp: scan slots in storage order, return the index
and process-reply of the first accepting TCP socket. -/
def processTcpLoop : List (Option Sock) → Option (Nat × Option Nat)
  | [] => none
  | slot :: rest =>
    match slot with
    | some (.tcp s) =>
      if s.acc then some (0, s.reply)
      else (processTcpLoop rest).map (fun p => (p.1 + 1, p.2))
    | _ => (processTcpLoop rest).map (fun p => (p.1 + 1, p.2))

/-- InterfaceInner::process_tcp of iface/interface/tcp.rs, after successful
parsing: deliver to the first accepting TCP socket in slot order, otherwise
synthesize an RST unless the segment is an RST, an address is unspecified,
or a raw socket already handled it. -/
def processTcp (slots : List (Option Sock)) (handled_by_raw_socket : Bool)
    (seg : SegMeta) : ProcessTcpResult :=
  match processTcpLoop slots with
  | some (i, r) => .accepted i r
  | none =>
    if seg.isRst || !seg.dstSpecified || !seg.srcSpecified
        || handled_by_raw_socket then
      .dropSilently
    else
      .rstReply

/-- SocketSet::add of iface/socket_set.rs: put the socket in the first free
slot, pushing a new slot when all are occupied (the owned-storage branch);
returns the updated slots and the handle index. -/
def addSocket : List (Option Sock) → Sock → List (Option Sock) × Nat
  | [], sock => ([some sock], 0)
  | none :: rest, sock => (some sock :: rest, 0)
  | some x :: rest, sock =>
    let r := addSocket rest sock
    (some x :: r.1, r.2 + 1)

/-- SocketSet::remove of iface/socket_set.rs: take the socket out of the slot
named by the handle, leaving the slot free. -/
def removeSocket (slots : List (Option Sock)) (handle : Nat) :
    List (Option Sock) :=
  slots.set handle none

/-- Bit length of a natural number (number of binary digits), computed with
explicit fuel so that it evaluates by kernel reduction; fuel n suffices. -/
def bitLenAux : Nat → Nat → Nat
  | 0, _ => 0
  | fuel + 1, n => if n = 0 then 0 else bitLenAux fuel (n / 2) + 1

/-- Bit length of a natural number: the least b with n < 2 ^ b. -/
def bitLen (n : Nat) : Nat :=
  bitLenAux n n

/-- Modelled from the spec: the remote_win_shift computation performed when a
TCP socket is created (socket/tcp.rs, absent from the sources - only its
tests test_listen_syn_win_scale_buffers and test_syn_sent_win_scale_buffers
are in the tree). The announced window-scale shift is the bit length of the
rx buffer capacity minus 16 (saturating), capped at 14; this is the unique
function consistent with every pair asserted by those tests. -/
def remoteWinShift (rx_capacity : Nat) : Nat :=
  min (bitLen rx_capacity - 16) 14

/-- The (buffer_size, shift_amt) pairs asserted by the in-tree tests
test_listen_syn_win_scale_buffers and test_syn_sent_win_scale_buffers of
socket/tcp_linear_buffer_tests.inc.rs: for each pair, a socket whose rx
buffer has the given capacity announces the given window_scale in its
SYN / SYN|ACK and stores it in remote_win_shift. -/
def winScaleTestVectors : List (Nat × Nat) :=
  [(64, 0), (128, 0), (1024, 0), (65535, 0), (65536, 1), (65537, 1),
   (131071, 1), (131072, 2), (524287, 3), (524288, 4), (655350, 4),
   (1048576, 5)]

/-- Free-compaction invariant: an empty buffer (no committed and no
unallocated-written data) has read_at reset to 0. -/
def freeCompacted (b : LinearBuffer) : Prop :=
  b.occupied_extent = 0 → b.read_at = 0

/-- Well-formedness of a LinearBuffer: the occupied region starting at read_at
lies inside the storage. -/
def bufWF (b : LinearBuffer) : Prop :=
  b.read_at + b.length + b.unallocated_extent ≤ b.capacity

/-- Run a sequence of enqueue_slice/dequeue_slice pairs: each chunk is
enqueued and then immediately dequeued into a destination of the same
length; the dequeued chunks are collected in order. -/
def enqueueDequeuePairs : LinearBuffer → List (List Nat) → List (List Nat)
  | _, [] => []
  | b, d :: ds =>
    let r1 := b.enqueue_slice d
    let r2 := r1.1.dequeue_slice d.length
    r2.2 :: enqueueDequeuePairs r2.1 ds

/-- First socket of the insertion-order counterexample history. -/
def sockA : TcpSockModel := { acc := true, reply := some 1 }

/-- Second socket of the insertion-order counterexample history: it accepts
the segment. -/
def sockB : TcpSockModel := { acc := true, reply := some 2 }

/-- Third socket of the insertion-order counterexample history: inserted after
sockB, it also accepts the segment. -/
def sockC : TcpSockModel := { acc := true, reply := some 3 }

/-- An ordinary segment: not an RST, both addresses specified. -/
def segPlain : SegMeta :=
  { isRst := false, srcSpecified := true, dstSpecified := true }

/-- Socket-set slots after the history: add sockA, add sockB, remove sockA's
handle, add sockC. The add of sockC reuses sockA's freed slot 0, so slot
order is [sockC, sockB] while insertion order of the live sockets is
sockB before sockC. -/
def churnSlots : List (Option Sock) :=
  let s1 := addSocket [] (.tcp sockA)
  let s2 := addSocket s1.1 (.tcp sockB)
  let s3 := removeSocket s2.1 s1.2
  (addSocket s3 (.tcp sockC)).1

/-- A buffer reached from a fresh 100-byte LinearBuffer with window_reserve 0
by enqueueing 60 bytes and dequeueing 50 of them: read_at = 50, length = 10,
unallocated_extent = 0. -/
def cexBuf : LinearBuffer :=
  (((LinearBuffer.with_reserve (List.replicate 100 0) 0).enqueue_slice
      (List.replicate 60 7)).1.dequeue_slice 50).1

/-- C5: window() equals the contiguous tail space (capacity − read_at −
length, floored at zero) plus the head space beyond the caller-supplied
reserve (read_at − window_reserve when positive, else 0). -/
theorem window_eq_tail_plus_reclaimable_head (b : LinearBuffer) :
    (b.window : Int) =
      max ((b.capacity : Int) - b.read_at - b.length) 0 +
      max ((b.read_at : Int) - b.window_reserve) 0 := by
  simp only [LinearBuffer.window]
  omega

/-- C6: contiguous_window() equals capacity − read_at − length −
unallocated_extent, taken as 0 when the subtraction would go negative. -/
theorem contiguous_window_eq (b : LinearBuffer) :
    (b.contiguous_window : Int) =
      max ((b.capacity : Int) - b.read_at - b.length - b.unallocated_extent)
        0 := by
  simp only [LinearBuffer.contiguous_window, LinearBuffer.occupied_extent]
  omega

theorem sliceOf_length (l : List Nat) (s n : Nat) :
    (sliceOf l s n).length = min n (l.length - s) := by
  simp [sliceOf]

theorem writeBytes_length (l d : List Nat) (a : Nat)
    (h : a + d.length ≤ l.length) : (writeBytes l a d).length = l.length := by
  simp [writeBytes]
  omega

theorem writeBytes_zero_length (l d : List Nat) (h : d.length ≤ l.length) :
    (writeBytes l 0 d).length = l.length := by
  simpa using writeBytes_length l d 0 (by omega)

theorem sliceOf_writeBytes_zero (l d : List Nat) (n : Nat)
    (h : d.length = n) : sliceOf (writeBytes l 0 d) 0 n = d := by
  subst h
  simp [sliceOf, writeBytes, List.take_left]

theorem compact_if_needed_neg (b : LinearBuffer) (e : Nat)
    (h : ¬ (e > b.capacity ∧ b.read_at > 0)) :
    b.compact_if_needed e = (false, b) := by
  simp only [LinearBuffer.compact_if_needed]
  rw [if_neg h]

theorem compact_if_needed_pos (b : LinearBuffer) (e : Nat)
    (h : e > b.capacity ∧ b.read_at > 0) :
    b.compact_if_needed e =
      (true,
        { b with
            storage :=
              if b.occupied_extent > 0 then
                writeBytes b.storage 0
                  (sliceOf b.storage b.read_at b.occupied_extent)
              else b.storage,
            read_at := 0 }) := by
  simp only [LinearBuffer.compact_if_needed]
  rw [if_pos h]

/-- C4: the on-demand compaction step compact_if_needed fires exactly when the
pending write's end exceeds capacity and read_at > 0; when it fires it moves
the occupied extent to offset 0 and resets read_at; when the condition does
not hold the buffer (read_at in particular) is left unchanged. The last
conjunct instantiates this for get_unallocated, whose pending write ends at
read_at + length + offset + size. -/
theorem compaction_iff (b : LinearBuffer) (required_end : Nat) :
    ((b.compact_if_needed required_end).1 = true ↔
      b.capacity < required_end ∧ 0 < b.read_at) ∧
    (¬ (b.capacity < required_end ∧ 0 < b.read_at) →
      (b.compact_if_needed required_end).2 = b) ∧
    ((b.compact_if_needed required_end).1 = true →
      (b.compact_if_needed required_end).2.read_at = 0 ∧
      (b.read_at + b.occupied_extent ≤ b.capacity →
        sliceOf (b.compact_if_needed required_end).2.storage 0
            b.occupied_extent =
          sliceOf b.storage b.read_at b.occupied_extent)) ∧
    (∀ offset size : Nat,
      (b.get_unallocated offset size).1.read_at =
        if b.capacity < b.read_at + b.length + offset + size ∧ 0 < b.read_at
        then 0 else b.read_at) := by
  by_cases hc : b.capacity < required_end ∧ 0 < b.read_at
  case neg =>
    rw [compact_if_needed_neg b required_end hc]
    refine ⟨by simpa using hc, fun _ => rfl, by simp, ?_⟩
    intro offset size
    simp only [LinearBuffer.get_unallocated]
    by_cases hg : b.capacity < b.read_at + b.length + offset + size ∧
        0 < b.read_at
    case pos =>
      rw [compact_if_needed_pos b _ hg, if_pos hg]
      split_ifs <;> rfl
    case neg =>
      rw [compact_if_needed_neg b _ hg, if_neg hg]
      split_ifs <;> rfl
  case pos =>
    rw [compact_if_needed_pos b required_end hc]
    refine ⟨by simpa using hc, fun h => absurd hc h, fun _ => ⟨rfl, ?_⟩, ?_⟩
    · intro hb
      simp only
      split_ifs with he
      · rw [sliceOf_writeBytes_zero]
        rw [sliceOf_length]
        simp only [LinearBuffer.capacity] at hb
        omega
      · have h0 : b.occupied_extent = 0 := by omega
        simp [sliceOf, h0]
    · intro offset size
      simp only [LinearBuffer.get_unallocated]
      by_cases hg : b.capacity < b.read_at + b.length + offset + size ∧
          0 < b.read_at
      case pos =>
        rw [compact_if_needed_pos b _ hg, if_pos hg]
        split_ifs <;> rfl
      case neg =>
        rw [compact_if_needed_neg b _ hg, if_neg hg]
        split_ifs <;> rfl

/-- Witness for compaction_iff at a concrete buffer where the condition fails:
the compaction step leaves the buffer unchanged. -/
theorem compaction_iff_witness :
    ((LinearBuffer.new [0, 0]).compact_if_needed 1).2 = LinearBuffer.new [0, 0] :=
  (compaction_iff (LinearBuffer.new [0, 0]) 1).2.1 (by decide)

/-- C7: enqueue_unallocated(n) panics (returns none) exactly when n exceeds
window() + unallocated_extent; within that bound it succeeds, len() grows by
exactly n and unallocated_extent shrinks by min(n, unallocated_extent). -/
theorem enqueue_unallocated_spec (b : LinearBuffer) (n : Nat) :
    (b.enqueue_unallocated n = none ↔
      b.window + b.unallocated_extent < n) ∧
    (n ≤ b.window + b.unallocated_extent →
      ∃ b', b.enqueue_unallocated n = some b' ∧
        b'.len = b.len + n ∧
        b'.unallocated_extent =
          b.unallocated_extent - min n b.unallocated_extent) := by
  constructor
  · simp only [LinearBuffer.enqueue_unallocated]
    split_ifs with h
    · simp
      omega
    · simp
      omega
  · intro h
    simp only [LinearBuffer.enqueue_unallocated]
    rw [if_pos h]
    refine ⟨_, rfl, ?_, ?_⟩ <;>
      simp only [LinearBuffer.compact_if_free, LinearBuffer.len] <;>
      split_ifs <;> simp <;> omega

/-- Witness for enqueue_unallocated_spec: on a fresh 4-byte buffer,
enqueue_unallocated 3 succeeds with len 3. -/
theorem enqueue_unallocated_spec_witness :
    ((LinearBuffer.new [0, 0, 0, 0]).enqueue_unallocated 3).map
      LinearBuffer.len = some 3 := by
  obtain ⟨b', hb, hlen, hu⟩ :=
    (enqueue_unallocated_spec (LinearBuffer.new [0, 0, 0, 0]) 3).2 (by decide)
  rw [hb, Option.map_some', hlen]
  rfl

theorem bitLenAux_zero_arg (fuel : Nat) : bitLenAux fuel 0 = 0 := by
  cases fuel <;> rfl

theorem bitLenAux_spec (fuel : Nat) :
    ∀ n : Nat, n ≤ fuel →
      n < 2 ^ bitLenAux fuel n ∧
      (0 < n → 2 ^ (bitLenAux fuel n - 1) ≤ n) := by
  induction fuel with
  | zero =>
    intro n hn
    have : n = 0 := by omega
    subst this
    simp [bitLenAux]
  | succ fuel ih =>
    intro n hn
    by_cases h0 : n = 0
    · subst h0
      simp [bitLenAux]
    · have hrec : n / 2 ≤ fuel := by omega
      obtain ⟨h1, h2⟩ := ih (n / 2) hrec
      simp only [bitLenAux, h0, if_false]
      constructor
      · rw [pow_succ]
        omega
      · intro _
        simp only [Nat.add_sub_cancel]
        by_cases hn2 : n / 2 = 0
        · rw [hn2, bitLenAux_zero_arg]
          simpa using Nat.pos_of_ne_zero h0
        · have h2' := h2 (Nat.pos_of_ne_zero hn2)
          have hk : 1 ≤ bitLenAux fuel (n / 2) := by
            by_contra hk0
            have : bitLenAux fuel (n / 2) = 0 := by omega
            rw [this] at h1
            omega
          obtain ⟨k, hkeq⟩ : ∃ k, bitLenAux fuel (n / 2) = k + 1 :=
            ⟨bitLenAux fuel (n / 2) - 1, by omega⟩
          rw [hkeq] at h2' ⊢
          simp only [Nat.add_sub_cancel] at h2'
          rw [pow_succ]
          omega

theorem bitLen_spec (n : Nat) :
    n < 2 ^ bitLen n ∧ (0 < n → 2 ^ (bitLen n - 1) ≤ n) :=
  bitLenAux_spec n n (Nat.le_refl n)

/-- C1 (amended): the announced window-scale shift is min(14, s*) where s* is
the smallest s with rx_capacity < 2^(16+s), i.e. rx_capacity ≤ 65536·2^s − 1
(not 65535·2^s as the spec sentence says): the shift is at most 14; below
the cap the capacity fits in 16+s bits; and for a positive shift the
capacity does not fit in 16+s−1 bits (so s is smallest). The last conjunct
checks the function against every (buffer_size, shift) pair asserted by the
tests test_listen_syn_win_scale_buffers and test_syn_sent_win_scale_buffers. -/
theorem remote_win_shift_spec :
    (∀ cap : Nat,
      remoteWinShift cap ≤ 14 ∧
      (remoteWinShift cap < 14 → cap < 65536 * 2 ^ remoteWinShift cap) ∧
      (0 < remoteWinShift cap → 65536 * 2 ^ (remoteWinShift cap - 1) ≤ cap)) ∧
    winScaleTestVectors.all (fun p => remoteWinShift p.1 == p.2) = true := by
  constructor
  · intro cap
    obtain ⟨h1, h2⟩ := bitLen_spec cap
    refine ⟨Nat.min_le_right _ _, ?_, ?_⟩
    · intro hlt
      have hs : remoteWinShift cap = bitLen cap - 16 := by
        unfold remoteWinShift at hlt ⊢
        omega
      have hble : bitLen cap ≤ 16 + remoteWinShift cap := by omega
      calc cap < 2 ^ bitLen cap := h1
        _ ≤ 2 ^ (16 + remoteWinShift cap) :=
          Nat.pow_le_pow_right (by norm_num) hble
        _ = 65536 * 2 ^ remoteWinShift cap := by
          rw [pow_add]
          norm_num
    · intro hpos
      have hs : remoteWinShift cap ≤ bitLen cap - 16 := Nat.min_le_left _ _
      have hcap : 0 < cap := by
        by_contra hc
        have : cap = 0 := by omega
        subst this
        simp [remoteWinShift, bitLen, bitLenAux] at hpos
      have h2' := h2 hcap
      have : 16 + remoteWinShift cap - 1 ≤ bitLen cap - 1 := by omega
      calc 65536 * 2 ^ (remoteWinShift cap - 1)
          = 2 ^ (16 + (remoteWinShift cap - 1)) := by
            rw [pow_add]
            norm_num
        _ = 2 ^ (16 + remoteWinShift cap - 1) := by
            congr 1
            omega
        _ ≤ 2 ^ (bitLen cap - 1) := Nat.pow_le_pow_right (by norm_num) this
        _ ≤ cap := h2'
  · decide

/-- Witness for remote_win_shift_spec at rx capacity 131072: the shift is
positive and below the cap, and both inequalities hold there. -/
theorem remote_win_shift_spec_witness :
    131072 < 65536 * 2 ^ remoteWinShift 131072 ∧
    65536 * 2 ^ (remoteWinShift 131072 - 1) ≤ 131072 :=
  ⟨(remote_win_shift_spec.1 131072).2.1 (by decide),
   (remote_win_shift_spec.1 131072).2.2 (by decide)⟩

/-- Counterexample to C1 as stated: for rx buffer capacity 131071 the tests
(and the modelled code) fix the announced shift at 1, but 131071 does not
satisfy 131071 ≤ 65535·2^1; the smallest s with 131071 ≤ 65535·2^s is 2. -/
theorem remote_win_shift_cex :
    (131071, 1) ∈ winScaleTestVectors ∧ remoteWinShift 131071 = 1 ∧
    ¬ (131071 ≤ 65535 * 2 ^ 1) ∧ 131071 ≤ 65535 * 2 ^ 2 := by
  decide

theorem processTcpLoop_eq_none (slots : List (Option Sock))
    (h : ∀ o ∈ slots, isAcceptingTcp o = false) :
    processTcpLoop slots = none := by
  induction slots with
  | nil => rfl
  | cons slot rest ih =>
    have h1 := h slot (by simp)
    have h2 : ∀ o ∈ rest, isAcceptingTcp o = false :=
      fun o ho => h o (by simp [ho])
    cases slot with
    | none =>
      simp [processTcpLoop, ih h2]
    | some s =>
      cases s with
      | tcp t =>
        have ht : t.acc = false := by simpa [isAcceptingTcp] using h1
        simp [processTcpLoop, ht, ih h2]
      | other =>
        simp [processTcpLoop, ih h2]

/-- C3: when no socket accepts the parsed segment, process_tcp synthesizes an
RST reply exactly when the segment is not itself an RST, both addresses are
specified and no raw socket handled it; otherwise it returns no reply. -/
theorem process_tcp_rst_iff (slots : List (Option Sock))
    (handled_by_raw_socket : Bool) (seg : SegMeta)
    (hnone : ∀ o ∈ slots, isAcceptingTcp o = false) :
    (processTcp slots handled_by_raw_socket seg = .rstReply ↔
      seg.isRst = false ∧ seg.srcSpecified = true ∧
        seg.dstSpecified = true ∧ handled_by_raw_socket = false) ∧
    (¬ (seg.isRst = false ∧ seg.srcSpecified = true ∧
        seg.dstSpecified = true ∧ handled_by_raw_socket = false) →
      processTcp slots handled_by_raw_socket seg = .dropSilently) := by
  obtain ⟨ir, ss, ds⟩ := seg
  simp only [processTcp, processTcpLoop_eq_none slots hnone]
  cases ir <;> cases ss <;> cases ds <;> cases handled_by_raw_socket <;>
    simp

/-- Witness for process_tcp_rst_iff: a set holding one non-TCP socket and one
free slot, a plain non-RST segment with both addresses specified, not
handled by a raw socket: an RST reply is synthesized. -/
theorem process_tcp_rst_iff_witness :
    processTcp [some .other, none] false segPlain = .rstReply :=
  (process_tcp_rst_iff [some .other, none] false segPlain
    (by decide)).1.mpr (by decide)

theorem processTcpLoop_spec (slots : List (Option Sock)) :
    ∀ i r, processTcpLoop slots = some (i, r) →
      (∃ s : TcpSockModel,
        slots[i]? = some (some (.tcp s)) ∧ s.acc = true ∧ r = s.reply) ∧
      ∀ j, j < i → ∀ o, slots[j]? = some o → isAcceptingTcp o = false := by
  induction slots with
  | nil =>
    intro i r h
    simp [processTcpLoop] at h
  | cons slot rest ih =>
    intro i r h
    have hskip :
        (processTcpLoop rest).map (fun p => (p.1 + 1, p.2)) = some (i, r) →
        isAcceptingTcp slot = false →
        (∃ s : TcpSockModel,
          (slot :: rest)[i]? = some (some (.tcp s)) ∧ s.acc = true ∧
            r = s.reply) ∧
        ∀ j, j < i → ∀ o, (slot :: rest)[j]? = some o →
          isAcceptingTcp o = false := by
      intro hm hacc
      rw [Option.map_eq_some'] at hm
      obtain ⟨⟨i', r'⟩, hrest, heq⟩ := hm
      simp only [Prod.mk.injEq] at heq
      obtain ⟨hi, hr⟩ := heq
      obtain ⟨⟨s, hs, hsa, hsr⟩, hbefore⟩ := ih i' r' hrest
      constructor
      · refine ⟨s, ?_, hsa, ?_⟩
        · rw [← hi]
          simpa using hs
        · rw [← hr]
          exact hsr
      · intro j hj o ho
        cases j with
        | zero =>
          simp at ho
          rw [← ho]
          exact hacc
        | succ j' =>
          simp at ho
          exact hbefore j' (by omega) o ho
    cases slot with
    | none =>
      simp only [processTcpLoop] at h
      exact hskip h rfl
    | some s =>
      cases s with
      | tcp t =>
        by_cases ht : t.acc
        · simp only [processTcpLoop, ht, if_true] at h
          have hi : i = 0 ∧ r = t.reply := by
            constructor
            · have := congrArg (fun p => p.map Prod.fst) h
              simpa using this.symm
            · have := congrArg (fun p => p.map Prod.snd) h
              simpa using this.symm
          obtain ⟨hi0, hrr⟩ := hi
          subst hi0
          subst hrr
          exact ⟨⟨t, by simp, ht, rfl⟩, fun j hj => by omega⟩
        · simp only [processTcpLoop, ht, if_false] at h
          exact hskip h (by simpa [isAcceptingTcp] using ht)
      | other =>
        simp only [processTcpLoop] at h
        exact hskip h rfl

theorem addSocket_lowest_free (slots : List (Option Sock)) (sock : Sock) :
    (addSocket slots sock).1[(addSocket slots sock).2]? = some (some sock) ∧
    ∀ j, j < (addSocket slots sock).2 → slots[j]? ≠ some none := by
  induction slots with
  | nil => simp [addSocket]
  | cons slot rest ih =>
    cases slot with
    | none => simp [addSocket]
    | some x =>
      simp only [addSocket]
      refine ⟨by simpa using ih.1, ?_⟩
      intro j hj
      cases j with
      | zero => simp
      | succ j' =>
        simp only [List.getElem?_cons_succ]
        exact ih.2 j' (by simpa using hj)

/-- C9 (amended): process_tcp delivers the segment to the first socket in
storage-slot order whose accepts returns true (earlier slots hold no
accepting TCP socket, so no other socket's process runs), and SocketSet.add
stores a socket in the lowest-index free slot - which coincides with
insertion order only while no freed slot is reused. -/
theorem process_tcp_first_in_slot_order (slots : List (Option Sock))
    (handled_by_raw_socket : Bool) (seg : SegMeta) :
    (∀ i r, processTcp slots handled_by_raw_socket seg = .accepted i r →
      (∃ s : TcpSockModel,
        slots[i]? = some (some (.tcp s)) ∧ s.acc = true ∧ r = s.reply) ∧
      ∀ j, j < i → ∀ o, slots[j]? = some o → isAcceptingTcp o = false) ∧
    (∀ sock : Sock,
      (addSocket slots sock).1[(addSocket slots sock).2]? =
        some (some sock) ∧
      ∀ j, j < (addSocket slots sock).2 → slots[j]? ≠ some none) := by
  refine ⟨?_, fun sock => addSocket_lowest_free slots sock⟩
  intro i r h
  simp only [processTcp] at h
  cases hl : processTcpLoop slots with
  | none =>
    rw [hl] at h
    split_ifs at h
  | some p =>
    rw [hl] at h
    obtain ⟨i', r'⟩ := p
    simp only [ProcessTcpResult.accepted.injEq] at h
    obtain ⟨hi1, hi2⟩ := h
    rw [hi1, hi2] at hl
    exact processTcpLoop_spec slots i r hl

/-- Witness for process_tcp_first_in_slot_order on the churned socket set:
slot 0 of that set is occupied (it holds the accepting socket found by the
dispatch loop). -/
theorem process_tcp_first_in_slot_order_witness :
    churnSlots[0]?.isSome = true := by
  obtain ⟨⟨s, hs, _, _⟩, _⟩ :=
    (process_tcp_first_in_slot_order churnSlots false segPlain).1 0 (some 3)
      (by decide)
  rw [hs]
  rfl

/-- Counterexample to C9 as stated: after the history add sockA, add sockB,
remove sockA's handle, add sockC, the add of sockC reuses freed slot 0, so
the set iterates [sockC, sockB]. For a segment both sockets accept,
process_tcp delivers to sockC although sockB was inserted earlier - the
first accepting socket in insertion order (sockB, reply some 2) is not the
one processed (sockC, reply some 3). -/
theorem process_tcp_insertion_order_cex :
    churnSlots = [some (.tcp sockC), some (.tcp sockB)] ∧
    processTcp churnSlots false segPlain =
      .accepted 0 (some 3) ∧
    sockB.acc = true ∧ some 3 ≠ sockB.reply := by
  decide

theorem freeCompacted_compact_if_free (b : LinearBuffer) :
    freeCompacted b.compact_if_free := by
  simp only [freeCompacted, LinearBuffer.compact_if_free]
  split_ifs with h <;> simp_all

theorem freeCompacted_reset_if_empty (b : LinearBuffer) :
    freeCompacted b.reset_if_empty := by
  simp only [freeCompacted, LinearBuffer.reset_if_empty]
  split_ifs with h <;> simp_all

theorem reset_if_empty_scalars (b : LinearBuffer) :
    b.reset_if_empty.length = b.length ∧
    b.reset_if_empty.unallocated_extent = b.unallocated_extent ∧
    b.reset_if_empty.storage = b.storage := by
  simp only [LinearBuffer.reset_if_empty]
  split_ifs <;> simp

theorem compact_if_needed_scalars (b : LinearBuffer) (e : Nat) :
    (b.compact_if_needed e).2.length = b.length ∧
    (b.compact_if_needed e).2.unallocated_extent = b.unallocated_extent ∧
    ((b.compact_if_needed e).2.read_at = 0 ∨
      (b.compact_if_needed e).2.read_at = b.read_at) := by
  simp only [LinearBuffer.compact_if_needed]
  split_ifs <;> simp

theorem freeCompacted_compact_if_needed (b : LinearBuffer) (e : Nat)
    (h : freeCompacted b) : freeCompacted (b.compact_if_needed e).2 := by
  obtain ⟨hl, hu, hr⟩ := compact_if_needed_scalars b e
  intro hocc
  rcases hr with hr | hr
  · exact hr
  · rw [hr]
    apply h
    simp only [LinearBuffer.occupied_extent] at hocc ⊢
    omega

theorem freeCompacted_set_storage (x : LinearBuffer) (st : List Nat)
    (h : freeCompacted x) : freeCompacted { x with storage := st } :=
  fun hocc => h hocc

theorem freeCompacted_enqueue_shape (b2 : LinearBuffer) (size : Nat)
    (st : List Nat) (h : freeCompacted b2) :
    freeCompacted { b2 with storage := st, length := b2.length + size } := by
  intro hocc
  simp only [LinearBuffer.occupied_extent] at hocc
  show b2.read_at = 0
  apply h
  simp only [LinearBuffer.occupied_extent]
  omega

theorem freeCompacted_get_unallocated (b : LinearBuffer)
    (h : freeCompacted b) (off n : Nat) :
    freeCompacted (b.get_unallocated off n).1 := by
  simp only [LinearBuffer.get_unallocated]
  split_ifs <;>
    first
      | exact freeCompacted_compact_if_needed _ _ h
      | (intro hocc
         simp only [LinearBuffer.occupied_extent] at hocc
         omega)

/-- C8: after every public LinearBuffer operation, an empty occupied extent
forces read_at = 0 (free compaction resets read_at without copying whenever
the buffer holds no committed and no unallocated-written data), assuming the
state entering the operation already satisfied that property. -/
theorem free_compaction_after_ops (b : LinearBuffer) (h : freeCompacted b) :
    freeCompacted b.clear ∧
    (∀ r, freeCompacted (b.set_window_reserve r)) ∧
    (∀ d, freeCompacted (b.enqueue_slice d).1) ∧
    (∀ n, freeCompacted (b.dequeue_slice n).1) ∧
    (∀ n, freeCompacted (b.enqueue_many n).1) ∧
    (∀ n, freeCompacted (b.dequeue_many n).1) ∧
    (∀ f k b', b.enqueue_many_with f = some (k, b') → freeCompacted b') ∧
    (∀ f k b', b.dequeue_many_with f = some (k, b') → freeCompacted b') ∧
    (∀ off n, freeCompacted (b.get_unallocated off n).1) ∧
    (∀ off d, freeCompacted (b.write_unallocated off d).1) ∧
    (∀ n b', b.enqueue_unallocated n = some b' → freeCompacted b') ∧
    (∀ n b', b.dequeue_allocated n = some b' → freeCompacted b') := by
  refine ⟨fun _ => rfl, fun r hocc => h hocc, ?_, ?_, ?_, ?_, ?_, ?_, ?_,
    ?_, ?_, ?_⟩
  · intro d
    simp only [LinearBuffer.enqueue_slice]
    exact freeCompacted_enqueue_shape _ _ _
      (freeCompacted_compact_if_needed _ _ (freeCompacted_reset_if_empty b))
  · intro n
    simp only [LinearBuffer.dequeue_slice]
    exact freeCompacted_compact_if_free _
  · intro n
    simp only [LinearBuffer.enqueue_many]
    exact freeCompacted_enqueue_shape _ _ _
      (freeCompacted_compact_if_needed _ _ (freeCompacted_reset_if_empty b))
  · intro n
    simp only [LinearBuffer.dequeue_many]
    split_ifs with hc
    · intro _
      rfl
    · intro hocc
      exact absurd hocc hc
  · intro f k b' heq
    simp only [LinearBuffer.enqueue_many_with] at heq
    split_ifs at heq
    simp only [Option.some.injEq, Prod.mk.injEq] at heq
    rw [← heq.2]
    exact freeCompacted_enqueue_shape _ _ _
      (freeCompacted_compact_if_needed _ _ (freeCompacted_reset_if_empty b))
  · intro f k b' heq
    simp only [LinearBuffer.dequeue_many_with] at heq
    split_ifs at heq with h1 h2
    · simp only [Option.some.injEq, Prod.mk.injEq] at heq
      rw [← heq.2]
      intro _
      rfl
    · simp only [Option.some.injEq, Prod.mk.injEq] at heq
      have hgoal : freeCompacted
          { b.compact_if_free with
              storage := writeBytes b.compact_if_free.storage
                b.compact_if_free.read_at
                ((f (sliceOf b.compact_if_free.storage
                    b.compact_if_free.read_at b.compact_if_free.length)).2.take
                    b.compact_if_free.length ++
                  (sliceOf b.compact_if_free.storage b.compact_if_free.read_at
                    b.compact_if_free.length).drop
                    (f (sliceOf b.compact_if_free.storage
                      b.compact_if_free.read_at b.compact_if_free.length)).2.length),
              read_at := b.compact_if_free.read_at +
                (f (sliceOf b.compact_if_free.storage b.compact_if_free.read_at
                  b.compact_if_free.length)).1,
              length := b.compact_if_free.length -
                (f (sliceOf b.compact_if_free.storage b.compact_if_free.read_at
                  b.compact_if_free.length)).1 } := by
        intro hocc
        simp only [LinearBuffer.occupied_extent] at hocc
        exact absurd ⟨by omega, by omega⟩ h2
      rw [← heq.2]
      exact hgoal
  · exact freeCompacted_get_unallocated b h
  · intro off d
    simp only [LinearBuffer.write_unallocated]
    exact freeCompacted_set_storage _ _ (freeCompacted_get_unallocated b h _ _)
  · intro n b' heq
    simp only [LinearBuffer.enqueue_unallocated] at heq
    split_ifs at heq
    all_goals
      simp only [Option.some.injEq] at heq
      rw [← heq]
      exact freeCompacted_compact_if_free _
  · intro n b' heq
    simp only [LinearBuffer.dequeue_allocated] at heq
    split_ifs at heq
    simp only [Option.some.injEq] at heq
    rw [← heq]
    exact freeCompacted_compact_if_free _

/-- Witness for free_compaction_after_ops: dequeueing the only byte of a fresh
one-byte-full buffer leaves read_at = 0. -/
theorem free_compaction_after_ops_witness :
    (((LinearBuffer.new [0, 0]).enqueue_slice [5]).1.dequeue_slice 1).1.read_at
      = 0 := by
  have happ :=
    (free_compaction_after_ops ((LinearBuffer.new [0, 0]).enqueue_slice [5]).1
      (fun hocc => absurd hocc (by decide))).2.2.2.1 1
  exact happ (by decide)

theorem pair_step (b : LinearBuffer) (d : List Nat)
    (hr : b.read_at = 0) (hl : b.length = 0) (hu : b.unallocated_extent = 0)
    (hd : d.length ≤ b.capacity) :
    ((b.enqueue_slice d).1.dequeue_slice d.length).2 = d ∧
    ((b.enqueue_slice d).1.dequeue_slice d.length).1.read_at = 0 ∧
    ((b.enqueue_slice d).1.dequeue_slice d.length).1.length = 0 ∧
    ((b.enqueue_slice d).1.dequeue_slice d.length).1.unallocated_extent = 0 ∧
    ((b.enqueue_slice d).1.dequeue_slice d.length).1.capacity = b.capacity := by
  rcases b with ⟨st, ra, l, u, res⟩
  simp only [LinearBuffer.capacity] at hd
  simp only at hr hl hu
  subst hr
  subst hl
  subst hu
  have hmin : min d.length st.length = d.length := Nat.min_eq_left hd
  simp [LinearBuffer.enqueue_slice, LinearBuffer.reset_if_empty,
    LinearBuffer.occupied_extent, LinearBuffer.compact_if_needed,
    LinearBuffer.contiguous_window, LinearBuffer.capacity,
    LinearBuffer.dequeue_slice, LinearBuffer.compact_if_free, hmin,
    sliceOf, writeBytes, List.take_left]
  omega

theorem roundtrip_aux :
    ∀ (ds : List (List Nat)) (b : LinearBuffer),
      b.read_at = 0 → b.length = 0 → b.unallocated_extent = 0 →
      (ds.map List.length).sum ≤ b.capacity →
      enqueueDequeuePairs b ds = ds := by
  intro ds
  induction ds with
  | nil =>
    intro b _ _ _ _
    rfl
  | cons d ds ih =>
    intro b hr hl hu hsum
    have hd : d.length ≤ b.capacity := by
      simp only [List.map_cons, List.sum_cons] at hsum
      omega
    obtain ⟨hout, hra, hlen, hue, hcap⟩ := pair_step b d hr hl hu hd
    simp only [enqueueDequeuePairs]
    rw [hout]
    congr 1
    apply ih _ hra hlen hue
    rw [hcap]
    simp only [List.map_cons, List.sum_cons] at hsum
    omega

/-- C2: for every sequence of enqueue_slice/dequeue_slice pairs whose chunk
lengths sum to at most the buffer capacity, running the pairs on a fresh
LinearBuffer returns exactly the enqueued chunks, in order. -/
theorem enqueue_dequeue_roundtrip (storage : List Nat) (reserve : Nat)
    (ds : List (List Nat))
    (hsum : (ds.map List.length).sum ≤ storage.length) :
    enqueueDequeuePairs (LinearBuffer.with_reserve storage reserve) ds = ds :=
  roundtrip_aux ds (LinearBuffer.with_reserve storage reserve) rfl rfl rfl
    hsum

/-- Witness for enqueue_dequeue_roundtrip: two chunks through a fresh 4-byte
buffer come back unchanged. -/
theorem enqueue_dequeue_roundtrip_witness :
    enqueueDequeuePairs (LinearBuffer.with_reserve [0, 0, 0, 0] 0)
      [[1, 2], [3]] = [[1, 2], [3]] :=
  enqueue_dequeue_roundtrip [0, 0, 0, 0] 0 [[1, 2], [3]] (by decide)

theorem writeBytes_nil (l : List Nat) (a : Nat) : writeBytes l a [] = l := by
  simp [writeBytes]

theorem forced_slice_length (slice rep : List Nat) (m : Nat)
    (h : slice.length = m) :
    (rep.take m ++ slice.drop rep.length).length = m := by
  simp only [List.length_append, List.length_take, List.length_drop, h]
  omega

theorem reset_if_empty_wf (b : LinearBuffer) (h : bufWF b) :
    bufWF b.reset_if_empty ∧ b.reset_if_empty.capacity = b.capacity := by
  simp only [bufWF, LinearBuffer.reset_if_empty, LinearBuffer.capacity,
    LinearBuffer.occupied_extent] at *
  split_ifs <;> simp_all

theorem compact_if_free_wf (b : LinearBuffer) (h : bufWF b) :
    bufWF b.compact_if_free ∧ b.compact_if_free.capacity = b.capacity := by
  simp only [bufWF, LinearBuffer.compact_if_free, LinearBuffer.capacity,
    LinearBuffer.occupied_extent] at *
  split_ifs <;> simp_all

theorem compact_if_needed_capacity (b : LinearBuffer) (e : Nat) :
    (b.compact_if_needed e).2.capacity = b.capacity := by
  simp only [LinearBuffer.compact_if_needed, LinearBuffer.capacity]
  split_ifs with h1 h2
  · simp only
    rw [writeBytes_zero_length]
    rw [sliceOf_length]
    omega
  · rfl
  · rfl

theorem compact_if_needed_wf (b : LinearBuffer) (e : Nat) (h : bufWF b) :
    bufWF (b.compact_if_needed e).2 := by
  have hcap := compact_if_needed_capacity b e
  obtain ⟨hl, hu, hr⟩ := compact_if_needed_scalars b e
  simp only [bufWF] at *
  rcases hr with hr | hr <;> rw [hr, hl, hu, hcap] <;> omega

theorem shapeA_wf (b2 : LinearBuffer) (size : Nat) (w : List Nat)
    (h : bufWF b2) (hs : size ≤ b2.contiguous_window)
    (hw : w.length ≤ b2.contiguous_window) :
    bufWF { b2 with
        storage := writeBytes b2.storage (b2.read_at + b2.length) w,
        length := b2.length + size } ∧
    ({ b2 with
        storage := writeBytes b2.storage (b2.read_at + b2.length) w,
        length := b2.length + size } : LinearBuffer).capacity = b2.capacity := by
  have hcap : (writeBytes b2.storage (b2.read_at + b2.length) w).length =
      b2.storage.length := by
    apply writeBytes_length
    simp only [bufWF, LinearBuffer.contiguous_window,
      LinearBuffer.occupied_extent, LinearBuffer.capacity] at *
    omega
  constructor
  · simp only [bufWF, LinearBuffer.capacity]
    simp only [hcap]
    simp only [bufWF, LinearBuffer.contiguous_window,
      LinearBuffer.occupied_extent, LinearBuffer.capacity] at h hs
    omega
  · simp only [LinearBuffer.capacity]
    exact hcap

theorem shapeB_wf (b2 : LinearBuffer) (size : Nat) (h : bufWF b2)
    (hs : size ≤ b2.contiguous_window) :
    bufWF { b2 with length := b2.length + size } ∧
    ({ b2 with length := b2.length + size } : LinearBuffer).capacity =
      b2.capacity := by
  simp only [bufWF, LinearBuffer.contiguous_window,
    LinearBuffer.occupied_extent, LinearBuffer.capacity] at *
  constructor
  · omega
  · trivial

theorem compact_if_needed_false (b : LinearBuffer) (e : Nat)
    (hf : (b.compact_if_needed e).1 = false) :
    (b.compact_if_needed e).2 = b := by
  by_cases hc : e > b.capacity ∧ b.read_at > 0
  · rw [compact_if_needed_pos b e hc] at hf
    simp at hf
  · rw [compact_if_needed_neg b e hc]

theorem enqueue_slice_wf (b : LinearBuffer) (d : List Nat) (h : bufWF b) :
    bufWF (b.enqueue_slice d).1 ∧
    (b.enqueue_slice d).1.capacity = b.capacity := by
  have h1 := reset_if_empty_wf b h
  simp only [LinearBuffer.enqueue_slice]
  set b2 := (b.reset_if_empty.compact_if_needed
    (b.reset_if_empty.read_at + b.reset_if_empty.length + d.length)).2
    with hb2def
  have h2 : bufWF b2 := by
    rw [hb2def]
    exact compact_if_needed_wf _ _ h1.1
  have h2c : b2.capacity = b.capacity := by
    rw [hb2def, compact_if_needed_capacity]
    exact h1.2
  have hw : (d.take (min d.length b2.contiguous_window)).length ≤
      b2.contiguous_window := by
    simp only [List.length_take]
    omega
  have hA := shapeA_wf b2 (min d.length b2.contiguous_window)
    (d.take (min d.length b2.contiguous_window)) h2 (Nat.min_le_right _ _) hw
  exact ⟨hA.1, hA.2.trans h2c⟩

theorem enqueue_many_wf (b : LinearBuffer) (n : Nat) (h : bufWF b) :
    bufWF (b.enqueue_many n).1 ∧
    (b.enqueue_many n).1.capacity = b.capacity ∧
    (b.enqueue_many n).2.1 + (b.enqueue_many n).2.2 ≤ b.capacity := by
  have h1 := reset_if_empty_wf b h
  simp only [LinearBuffer.enqueue_many]
  set b2 := (b.reset_if_empty.compact_if_needed
    (b.reset_if_empty.read_at + b.reset_if_empty.length + n)).2
    with hb2def
  have h2 : bufWF b2 := by
    rw [hb2def]
    exact compact_if_needed_wf _ _ h1.1
  have h2c : b2.capacity = b.capacity := by
    rw [hb2def, compact_if_needed_capacity]
    exact h1.2
  have hB := shapeB_wf b2 (min n b2.contiguous_window) h2 (Nat.min_le_right _ _)
  refine ⟨hB.1, hB.2.trans h2c, ?_⟩
  simp only [bufWF, LinearBuffer.contiguous_window,
    LinearBuffer.occupied_extent, LinearBuffer.capacity] at h2 h2c ⊢
  omega

theorem dequeue_shape_wf (b : LinearBuffer) (size : Nat) (h : bufWF b)
    (hs : size ≤ b.length) :
    bufWF { b with read_at := b.read_at + size, length := b.length - size } ∧
    ({ b with
        read_at := b.read_at + size,
        length := b.length - size } : LinearBuffer).capacity = b.capacity := by
  simp only [bufWF, LinearBuffer.capacity] at *
  exact ⟨by omega, by trivial⟩

theorem dequeue_slice_wf (b : LinearBuffer) (n : Nat) (h : bufWF b) :
    bufWF (b.dequeue_slice n).1 ∧
    (b.dequeue_slice n).1.capacity = b.capacity ∧
    b.read_at + min n b.length ≤ b.capacity := by
  simp only [LinearBuffer.dequeue_slice]
  have hsh := dequeue_shape_wf b (min n b.length) h (Nat.min_le_right _ _)
  have hcf := compact_if_free_wf _ hsh.1
  refine ⟨hcf.1, hcf.2.trans hsh.2, ?_⟩
  simp only [bufWF, LinearBuffer.capacity] at h ⊢
  omega

theorem dequeue_many_wf (b : LinearBuffer) (n : Nat) (h : bufWF b) :
    bufWF (b.dequeue_many n).1 ∧
    (b.dequeue_many n).1.capacity = b.capacity ∧
    b.read_at + min n b.length ≤ b.capacity := by
  simp only [LinearBuffer.dequeue_many]
  split_ifs with hc <;>
    simp only [bufWF, LinearBuffer.capacity, LinearBuffer.occupied_extent]
      at h ⊢ <;>
    refine ⟨by omega, by trivial, by omega⟩

theorem enqueue_many_with_wf (b : LinearBuffer)
    (f : List Nat → Nat × List Nat) (h : bufWF b) :
    ∀ k b', b.enqueue_many_with f = some (k, b') →
      bufWF b' ∧ b'.capacity = b.capacity := by
  intro k b' heq
  have h1 := reset_if_empty_wf b h
  simp only [LinearBuffer.enqueue_many_with] at heq
  set b2 := (b.reset_if_empty.compact_if_needed
      (b.reset_if_empty.read_at + b.reset_if_empty.length +
        b.reset_if_empty.window)).2 with hb2def
  have h2 : bufWF b2 := by
    rw [hb2def]
    exact compact_if_needed_wf _ _ h1.1
  have h2c : b2.capacity = b.capacity := by
    rw [hb2def, compact_if_needed_capacity]
    exact h1.2
  set sl := sliceOf b2.storage (b2.read_at + b2.length) b2.contiguous_window
    with hsl
  split_ifs at heq with hk
  simp only [Option.some.injEq, Prod.mk.injEq] at heq
  obtain ⟨hkk, hbb⟩ := heq
  rw [← hbb]
  have hslb : sl.length ≤ b2.contiguous_window := by
    rw [hsl, sliceOf_length]
    omega
  have hw : ((f sl).2.take b2.contiguous_window ++
      sl.drop (f sl).2.length).length ≤ b2.contiguous_window := by
    simp only [List.length_append, List.length_take, List.length_drop]
    omega
  have hA := shapeA_wf b2 (f sl).1
    ((f sl).2.take b2.contiguous_window ++ sl.drop (f sl).2.length) h2 hk hw
  exact ⟨hA.1, hA.2.trans h2c⟩

theorem dequeue_many_with_wf (b : LinearBuffer)
    (f : List Nat → Nat × List Nat) (h : bufWF b) :
    ∀ k b', b.dequeue_many_with f = some (k, b') →
      bufWF b' ∧ b'.capacity = b.capacity := by
  intro k b' heq
  have h1 := compact_if_free_wf b h
  simp only [LinearBuffer.dequeue_many_with] at heq
  set b1 := b.compact_if_free with hb1def
  set sl := sliceOf b1.storage b1.read_at b1.length with hsl
  have hwfb1 : b1.read_at + b1.length + b1.unallocated_extent ≤
      b1.storage.length := h1.1
  have hsllen : sl.length = b1.length := by
    rw [hsl, sliceOf_length]
    omega
  have hwlen : ((f sl).2.take b1.length ++ sl.drop (f sl).2.length).length =
      b1.length := forced_slice_length sl _ _ hsllen
  have hstor : (writeBytes b1.storage b1.read_at
      ((f sl).2.take b1.length ++ sl.drop (f sl).2.length)).length =
      b1.storage.length := by
    apply writeBytes_length
    rw [hwlen]
    omega
  split_ifs at heq with hk hz
  · simp only [Option.some.injEq, Prod.mk.injEq] at heq
    rw [← heq.2]
    constructor
    · simp only [bufWF, LinearBuffer.capacity]
      rw [hstor]
      omega
    · simp only [LinearBuffer.capacity]
      rw [hstor]
      exact h1.2
  · simp only [Option.some.injEq, Prod.mk.injEq] at heq
    rw [← heq.2]
    constructor
    · simp only [bufWF, LinearBuffer.capacity]
      rw [hstor]
      omega
    · simp only [LinearBuffer.capacity]
      rw [hstor]
      exact h1.2

theorem enqueue_unallocated_wf (b : LinearBuffer) (n : Nat) (h : bufWF b)
    (hn : n ≤ b.contiguous_window + b.unallocated_extent) :
    ∀ b', b.enqueue_unallocated n = some b' →
      bufWF b' ∧ b'.capacity = b.capacity := by
  intro b' heq
  simp only [LinearBuffer.enqueue_unallocated] at heq
  split_ifs at heq with h1 h2 <;>
    simp only [Option.some.injEq] at heq <;>
    rw [← heq] <;>
    [skip; skip] <;>
    · constructor
      · refine (compact_if_free_wf _ ?_).1
        simp only [bufWF, LinearBuffer.contiguous_window,
          LinearBuffer.occupied_extent, LinearBuffer.capacity] at h hn ⊢
        omega
      · refine ((compact_if_free_wf _ ?_).2 : _)
        simp only [bufWF, LinearBuffer.contiguous_window,
          LinearBuffer.occupied_extent, LinearBuffer.capacity] at h hn ⊢
        omega

theorem dequeue_allocated_wf (b : LinearBuffer) (n : Nat) (h : bufWF b) :
    ∀ b', b.dequeue_allocated n = some b' →
      bufWF b' ∧ b'.capacity = b.capacity := by
  intro b' heq
  simp only [LinearBuffer.dequeue_allocated] at heq
  split_ifs at heq with h1
  simp only [Option.some.injEq] at heq
  rw [← heq]
  have hsh : bufWF { b with length := b.length - n, read_at := b.read_at + n }
      := by
    simp only [bufWF, LinearBuffer.capacity] at h ⊢
    omega
  exact ⟨(compact_if_free_wf _ hsh).1, (compact_if_free_wf _ hsh).2⟩

theorem get_unallocated_wf (b : LinearBuffer) (off n : Nat) (h : bufWF b) :
    bufWF (b.get_unallocated off n).1 ∧
    (b.get_unallocated off n).1.capacity = b.capacity ∧
    (0 < (b.get_unallocated off n).2.2 →
      (b.get_unallocated off n).2.1 + (b.get_unallocated off n).2.2 ≤
        b.capacity) := by
  have hwf1 : bufWF (b.compact_if_needed
      (b.read_at + b.length + off + n)).2 :=
    compact_if_needed_wf _ _ h
  have hcap1 := compact_if_needed_capacity b (b.read_at + b.length + off + n)
  obtain ⟨hl1, hu1, hr1⟩ :=
    compact_if_needed_scalars b (b.read_at + b.length + off + n)
  simp only [LinearBuffer.get_unallocated]
  set c := b.compact_if_needed (b.read_at + b.length + off + n) with hcdef
  simp only [bufWF, LinearBuffer.capacity] at hwf1 h ⊢
  simp only [LinearBuffer.capacity] at hcap1
  split_ifs with h1 h2 h3 <;>
    simp only at * <;>
    refine ⟨by omega, by omega, by intro hpos; omega⟩

theorem write_unallocated_wf (b : LinearBuffer) (off : Nat) (d : List Nat)
    (h : bufWF b) :
    bufWF (b.write_unallocated off d).1 ∧
    (b.write_unallocated off d).1.capacity = b.capacity := by
  have hg := get_unallocated_wf b off d.length h
  simp only [LinearBuffer.write_unallocated]
  set r := b.get_unallocated off d.length with hrdef
  have hstor : (writeBytes r.1.storage r.2.1 (d.take r.2.2)).length =
      r.1.storage.length := by
    by_cases hz : r.2.2 = 0
    · rw [hz]
      simp [writeBytes_nil]
    · apply writeBytes_length
      have hb := hg.2.2 (Nat.pos_of_ne_zero hz)
      have hcap := hg.2.1
      simp only [LinearBuffer.capacity] at hb hcap ⊢
      simp only [List.length_take]
      omega
  constructor
  · simp only [bufWF, LinearBuffer.capacity]
    rw [hstor]
    exact hg.1
  · simp only [LinearBuffer.capacity]
    rw [hstor]
    exact hg.2.1

/-- C10 (amended): every SocketBufferT operation on a LinearBuffer, called
within its stated contract, preserves the invariant read_at + length +
unallocated_extent ≤ capacity and keeps the capacity unchanged, and the
slice indices computed by the read paths stay inside the storage - with one
strengthening forced by the counterexample: enqueue_unallocated requires
count ≤ contiguous_window() + unallocated_extent, because its stated bound
window() + unallocated_extent also counts head space that only a compaction
it never performs could reclaim. -/
theorem linear_buffer_wf (b : LinearBuffer) (h : bufWF b) :
    (∀ d, bufWF (b.enqueue_slice d).1 ∧
      (b.enqueue_slice d).1.capacity = b.capacity) ∧
    (∀ n, bufWF (b.dequeue_slice n).1 ∧
      (b.dequeue_slice n).1.capacity = b.capacity ∧
      b.read_at + min n b.length ≤ b.capacity) ∧
    (∀ n, bufWF (b.enqueue_many n).1 ∧
      (b.enqueue_many n).1.capacity = b.capacity ∧
      (b.enqueue_many n).2.1 + (b.enqueue_many n).2.2 ≤ b.capacity) ∧
    (∀ n, bufWF (b.dequeue_many n).1 ∧
      (b.dequeue_many n).1.capacity = b.capacity ∧
      b.read_at + min n b.length ≤ b.capacity) ∧
    (∀ f k b', b.enqueue_many_with f = some (k, b') →
      bufWF b' ∧ b'.capacity = b.capacity) ∧
    (∀ f k b', b.dequeue_many_with f = some (k, b') →
      bufWF b' ∧ b'.capacity = b.capacity) ∧
    (∀ off n, bufWF (b.get_unallocated off n).1 ∧
      (b.get_unallocated off n).1.capacity = b.capacity ∧
      (0 < (b.get_unallocated off n).2.2 →
        (b.get_unallocated off n).2.1 + (b.get_unallocated off n).2.2 ≤
          b.capacity)) ∧
    (∀ off d, bufWF (b.write_unallocated off d).1 ∧
      (b.write_unallocated off d).1.capacity = b.capacity) ∧
    (∀ n b', n ≤ b.contiguous_window + b.unallocated_extent →
      b.enqueue_unallocated n = some b' →
        bufWF b' ∧ b'.capacity = b.capacity) ∧
    (∀ n b', b.dequeue_allocated n = some b' →
      bufWF b' ∧ b'.capacity = b.capacity) ∧
    bufWF b.clear ∧
    (∀ off n, off ≤ b.length →
      b.read_at + off + min n (b.length - off) ≤ b.capacity) := by
  refine ⟨fun d => enqueue_slice_wf b d h,
    fun n => dequeue_slice_wf b n h,
    fun n => enqueue_many_wf b n h,
    fun n => dequeue_many_wf b n h,
    fun f k b' => enqueue_many_with_wf b f h k b',
    fun f k b' => dequeue_many_with_wf b f h k b',
    fun off n => get_unallocated_wf b off n h,
    fun off d => write_unallocated_wf b off d h,
    fun n b' hn => enqueue_unallocated_wf b n h hn b',
    fun n b' => dequeue_allocated_wf b n h b',
    ?_, ?_⟩
  · simp only [bufWF, LinearBuffer.clear, LinearBuffer.capacity]
    omega
  · intro off n hoff
    simp only [bufWF, LinearBuffer.capacity] at h ⊢
    omega

/-- Witness for linear_buffer_wf: enqueueing one byte into a fresh well-formed
two-byte buffer preserves the invariant. -/
theorem linear_buffer_wf_witness :
    bufWF ((LinearBuffer.new [0, 0]).enqueue_slice [7]).1 :=
  ((linear_buffer_wf (LinearBuffer.new [0, 0])
    (by unfold bufWF; decide)).1 [7]).1

/-- Counterexample to C10 as stated: cexBuf (reachable from a fresh 100-byte
LinearBuffer with window_reserve 0 by public operations) satisfies the
invariant and has window() + unallocated_extent = 90, so
enqueue_unallocated 90 is within the stated contract; it succeeds, yet the
resulting state has read_at + length + unallocated_extent = 150 > 100 =
capacity, so the invariant is destroyed and subsequent reads index past the
storage. -/
theorem linear_buffer_wf_cex :
    cexBuf.read_at + cexBuf.length + cexBuf.unallocated_extent ≤
      cexBuf.capacity ∧
    90 ≤ cexBuf.window + cexBuf.unallocated_extent ∧
    (cexBuf.enqueue_unallocated 90).map
      (fun b' => decide (b'.read_at + b'.length + b'.unallocated_extent ≤
        b'.capacity)) = some false := by
  decide
